import Mathlib

/-!
# Verification of the Collaborative Drawing Canvas server core

Shallow embedding of the server-side room state engine
(`server/drawing-state.js`), the room registry (`server/rooms.js`) and the
join handler of the websocket server, together with proofs about the
specified properties (history invariant, undo/redo round trip, commit
semantics, collection disjointness, session loading, password checks,
color assignment, and session auto-restore on join).

JavaScript `Map` objects are embedded as insertion-ordered association
lists with string keys.  Drawing elements are dynamic JS objects; the
fields the server logic inspects (`id`, `type`, `status`, `content`,
`dataUrl`) are embedded explicitly, and all remaining author-supplied
fields (points, colors, positions, ...) are collapsed into an opaque
`payload` string that every operation carries along unchanged, exactly as
the JS spread `{...element, ...}` does.
-/

namespace CollabDraw

/-- Insertion-ordered string-keyed map, the embedding of a JS `Map`. -/
abbrev JsMap (α : Type) := List (String × α)

/-- `Map.get`: value of the first entry with the given key. -/
def mapGet {α : Type} (m : JsMap α) (k : String) : Option α :=
  match m with
  | [] => none
  | (k1, v) :: rest => if k1 = k then some v else mapGet rest k

/-- `Map.has`. -/
def mapHas {α : Type} (m : JsMap α) (k : String) : Bool :=
  (mapGet m k).isSome

/-- `Map.set`: replace the entry in place when the key is present,
append at the end otherwise. -/
def mapSet {α : Type} (m : JsMap α) (k : String) (v : α) : JsMap α :=
  match m with
  | [] => [(k, v)]
  | (k1, v1) :: rest =>
      if k1 = k then (k, v) :: rest else (k1, v1) :: mapSet rest k v

/-- `Map.delete`. -/
def mapDelete {α : Type} (m : JsMap α) (k : String) : JsMap α :=
  match m with
  | [] => []
  | (k1, v1) :: rest =>
      if k1 = k then mapDelete rest k else (k1, v1) :: mapDelete rest k

/-- `Map.size` (maps built by `mapSet`/`mapDelete` from `[]` have distinct
keys, so the length is the size). -/
def mapSize {α : Type} (m : JsMap α) : Nat := m.length

/-- JS truthiness of an optional string field: `undefined`, `null` and
`""` are falsy. -/
def optTruthy (o : Option String) : Bool :=
  match o with
  | some s => s != ""
  | none => false

/-- JS `o || d` on an optional string field. -/
def jsOr (o : Option String) (d : String) : String :=
  match o with
  | some s => if s = "" then d else s
  | none => d

/-- A drawing element (Path / Shape / Text / Image payload).  Fields the
server inspects are explicit; `payload` stands for every other field and
is carried along unchanged by all operations. -/
structure Element where
  id : String := ""
  type : Option String := none
  status : Option String := none
  content : Option String := none
  dataUrl : Option String := none
  payload : String := ""
deriving DecidableEq, Repr

/-- A saved session (`room.sessions` values in `drawing-state.js`). -/
structure Session where
  name : String := ""
  elements : List Element := []
  createdAt : Nat := 0
deriving DecidableEq, Repr

/-- A connected participant (`clientInfo` in the server, minus the
socket handle, which carries no room-state information). -/
structure ClientInfo where
  id : String := ""
  name : String := ""
  color : String := ""
  posX : Int := -100
  posY : Int := -100
deriving DecidableEq, Repr

/-- A room (`createRoom` in `server/rooms.js`). -/
structure Room where
  clients : JsMap ClientInfo := []
  pathsById : JsMap Element := []
  shapesById : JsMap Element := []
  textsById : JsMap Element := []
  imagesById : JsMap Element := []
  committedIds : List String := []
  redoStack : List (String × Element) := []
  sessions : JsMap Session := []
  roomType : String := "public"
  passwordHash : Option String := none
deriving DecidableEq, Repr

/-- `createRoom(options)` from `server/rooms.js`. -/
def createRoom (roomType : Option String) (passwordHash : Option String) : Room :=
  { roomType := jsOr roomType "public"
    passwordHash := if optTruthy passwordHash then passwordHash else none }

/-! ## Room state engine: `server/drawing-state.js` -/

/-- `upsertPath(room, path)`.  The argument is optional because the JS
code guards `if (!path || !path.id) return null`. -/
def upsertPath (room : Room) (path : Option Element) : Option Element × Room :=
  match path with
  | none => (none, room)
  | some p =>
      if p.id = "" then (none, room)
      else
        let status := jsOr p.status
          (if room.committedIds.contains p.id then "committed" else "in-progress")
        let nextPath : Element := { p with type := some "path", status := some status }
        (some nextPath, { room with pathsById := mapSet room.pathsById p.id nextPath })

/-- `commitPath(room, pathId)`. -/
def commitPath (room : Room) (pathId : String) : Option Element × Room :=
  if pathId = "" then (none, room)
  else
    match mapGet room.pathsById pathId with
    | none => (none, room)
    | some existingPath =>
        let committedIds :=
          if room.committedIds.contains pathId then room.committedIds
          else room.committedIds ++ [pathId]
        let committedPath : Element := { existingPath with status := some "committed" }
        (some committedPath,
          { room with
              committedIds := committedIds
              redoStack := []
              pathsById := mapSet room.pathsById pathId committedPath })

/-- `upsertShape(room, shape)`.  Unlike `upsertPath`, no `type` tag is
forced onto the stored element. -/
def upsertShape (room : Room) (shape : Option Element) : Option Element × Room :=
  match shape with
  | none => (none, room)
  | some s =>
      if s.id = "" then (none, room)
      else
        let status := jsOr s.status
          (if room.committedIds.contains s.id then "committed" else "in-progress")
        let nextShape : Element := { s with status := some status }
        (some nextShape, { room with shapesById := mapSet room.shapesById s.id nextShape })

/-- `commitShape(room, shapeId)`. -/
def commitShape (room : Room) (shapeId : String) : Option Element × Room :=
  if shapeId = "" then (none, room)
  else
    match mapGet room.shapesById shapeId with
    | none => (none, room)
    | some existingShape =>
        let committedIds :=
          if room.committedIds.contains shapeId then room.committedIds
          else room.committedIds ++ [shapeId]
        let committedShape : Element := { existingShape with status := some "committed" }
        (some committedShape,
          { room with
              committedIds := committedIds
              redoStack := []
              shapesById := mapSet room.shapesById shapeId committedShape })

/-- `addText(room, text)`.  Note the unconditional
`room.committedIds.push(text.id)`. -/
def addText (room : Room) (text : Option Element) : Option Element × Room :=
  match text with
  | none => (none, room)
  | some t =>
      if t.id = "" then (none, room)
      else
        let textElement : Element := { t with status := some "committed" }
        (some textElement,
          { room with
              textsById := mapSet room.textsById t.id textElement
              committedIds := room.committedIds ++ [t.id]
              redoStack := [] })

/-- `addImage(room, image)`. -/
def addImage (room : Room) (image : Option Element) : Option Element × Room :=
  match image with
  | none => (none, room)
  | some i =>
      if i.id = "" then (none, room)
      else
        let imageElement : Element := { i with status := some "committed" }
        (some imageElement,
          { room with
              imagesById := mapSet room.imagesById i.id imageElement
              committedIds := room.committedIds ++ [i.id]
              redoStack := [] })

/-- `undo(room)`.  `committedIds.pop()` removes the last id even when the
popped string is falsy; the element lookup walks the four collections in
the fixed order paths, shapes, texts, images. -/
def undo (room : Room) : Option Element × Room :=
  match room.committedIds.getLast? with
  | none => (none, room)
  | some lastId =>
      let room1 := { room with committedIds := room.committedIds.dropLast }
      if lastId = "" then (none, room1)
      else
        match mapGet room1.pathsById lastId with
        | some e =>
            (some e, { room1 with
                pathsById := mapDelete room1.pathsById lastId
                redoStack := room1.redoStack ++ [(lastId, e)] })
        | none =>
        match mapGet room1.shapesById lastId with
        | some e =>
            (some e, { room1 with
                shapesById := mapDelete room1.shapesById lastId
                redoStack := room1.redoStack ++ [(lastId, e)] })
        | none =>
        match mapGet room1.textsById lastId with
        | some e =>
            (some e, { room1 with
                textsById := mapDelete room1.textsById lastId
                redoStack := room1.redoStack ++ [(lastId, e)] })
        | none =>
        match mapGet room1.imagesById lastId with
        | some e =>
            (some e, { room1 with
                imagesById := mapDelete room1.imagesById lastId
                redoStack := room1.redoStack ++ [(lastId, e)] })
        | none => (none, room1)

/-- `redo(room)`.  The target collection is guessed from incidental
fields: `type === 'path'`, then any truthy `type`, then a defined
`content`, then a defined `dataUrl`; an element matching none of these is
dropped while its id is still pushed onto `committedIds`. -/
def redo (room : Room) : Option Element × Room :=
  match room.redoStack.getLast? with
  | none => (none, room)
  | some (id, element) =>
      let room1 := { room with redoStack := room.redoStack.dropLast }
      let committedElement : Element := { element with status := some "committed" }
      let room2 :=
        if element.type = some "path" then
          { room1 with pathsById := mapSet room1.pathsById id committedElement }
        else if optTruthy element.type then
          { room1 with shapesById := mapSet room1.shapesById id committedElement }
        else if element.content.isSome then
          { room1 with textsById := mapSet room1.textsById id committedElement }
        else if element.dataUrl.isSome then
          { room1 with imagesById := mapSet room1.imagesById id committedElement }
        else room1
      (some committedElement, { room2 with committedIds := room2.committedIds ++ [id] })

/-- `clear(room)`: wipes the four collections and both history
structures; `clients` and `sessions` are untouched. -/
def clear (room : Room) : Room :=
  { room with
      pathsById := []
      shapesById := []
      textsById := []
      imagesById := []
      committedIds := []
      redoStack := [] }

/-- `saveSession(room, sessionName)`.  The generated session id and the
`Date.now()` timestamp are environment inputs and appear as explicit
parameters. -/
def saveSession (room : Room) (sessionName sessionId : String) (now : Nat) :
    (String × String) × Room :=
  let elements :=
    room.pathsById.map (fun p => p.2) ++ room.shapesById.map (fun p => p.2) ++
    room.textsById.map (fun p => p.2) ++ room.imagesById.map (fun p => p.2)
  let session : Session := { name := sessionName, elements := elements, createdAt := now }
  ((sessionId, sessionName),
    { room with sessions := mapSet room.sessions sessionId session })

/-- One step of the `loadSession` restore loop: classify the element by
the same incidental-field rules as `redo`, then append its id to
`committedIds` when its stored status is `"committed"`. -/
def insertSessionElement (room : Room) (element : Element) : Room :=
  let room1 :=
    if element.type = some "path" then
      { room with pathsById := mapSet room.pathsById element.id element }
    else if optTruthy element.type then
      { room with shapesById := mapSet room.shapesById element.id element }
    else if element.content.isSome then
      { room with textsById := mapSet room.textsById element.id element }
    else if element.dataUrl.isSome then
      { room with imagesById := mapSet room.imagesById element.id element }
    else room
  if element.status = some "committed" then
    { room1 with committedIds := room1.committedIds ++ [element.id] }
  else room1

/-- `loadSession(room, sessionId)`. -/
def loadSession (room : Room) (sessionId : String) : Option (List Element) × Room :=
  match mapGet room.sessions sessionId with
  | none => (none, room)
  | some session =>
      (some session.elements, session.elements.foldl insertSessionElement (clear room))

/-! ## Room registry: `server/rooms.js`

The SHA-256 digest used by `hashPassword` is embedded as an abstract
function parameter `digest : String → String`; every theorem below holds
for an arbitrary digest. -/

/-- `hashPassword(password)`: `null` for a falsy password, else the hex
digest. -/
def hashPassword (digest : String → String) (password : String) : Option String :=
  if password = "" then none else some (digest password)

/-- `isPasswordValid(room, password)`. -/
def isPasswordValid (digest : String → String) (room : Room) (password : String) : Bool :=
  if room.roomType ≠ "private" then true
  else if ¬ optTruthy room.passwordHash then false
  else hashPassword digest password = room.passwordHash

/-- One row of `buildSessionList`. -/
structure SessionMeta where
  id : String
  name : String
  createdAt : Nat
deriving DecidableEq, Repr

/-- `buildSessionList(room)`: session metadata sorted by descending
`createdAt` (JS `sort` is stable; `mergeSort` with a comparator that is
true on ties matches it). -/
def buildSessionList (room : Room) : List SessionMeta :=
  (room.sessions.map (fun p => SessionMeta.mk p.1 p.2.name p.2.createdAt)).mergeSort
    (fun a b => b.createdAt ≤ a.createdAt)

/-- `getLatestSessionId(room)`. -/
def getLatestSessionId (room : Room) : Option String :=
  match buildSessionList room with
  | [] => none
  | s :: _ => some s.id

/-! ## Connection gateway: the websocket `join` handler -/

/-- The fixed 10-color palette `USER_COLORS`. -/
def USER_COLORS : List String :=
  ["#DC2626", "#D97706", "#65A30D", "#059669", "#0891B2",
   "#0284C7", "#4F46E5", "#7C3AED", "#C026D3", "#DB2777"]

/-- Whether some participant of the room already uses the color. -/
def colorUsed (room : Room) (c : String) : Bool :=
  room.clients.any (fun p => p.2.color = c)

/-- `pickUserColor(room)`: first palette color not in use, else the
palette entry at index `clients.size % 10`. -/
def pickUserColor (room : Room) : String :=
  match USER_COLORS.find? (fun c => ¬ colorUsed room c) with
  | some c => c
  | none => USER_COLORS.getD (mapSize room.clients % USER_COLORS.length) ""

/-- The optional fields of an inbound `join` message. -/
structure JoinMsg where
  roomId : Option String := none
  roomType : Option String := none
  password : Option String := none
  name : Option String := none
deriving DecidableEq, Repr

/-- Outcome of a `join`: an `error` frame, or a `welcome` frame. -/
inductive JoinResult where
  | joinError (message : String)
  | welcome (id roomId roomType : String)
deriving DecidableEq, Repr

/-- The room the `join` handler works on after the access checks: the
existing room, or a freshly created one. -/
def joinTargetRoom (digest : String → String) (rooms : JsMap Room) (msg : JoinMsg) : Room :=
  match mapGet rooms (jsOr msg.roomId "default") with
  | some r => r
  | none =>
      let requestedRoomType := if msg.roomType = some "private" then "private" else "public"
      createRoom (some requestedRoomType)
        (if requestedRoomType = "private" then
          hashPassword digest (jsOr msg.password "") else none)

/-- The target room right after the joining participant has been
registered (color picked, `clients.set`), before the auto-restore step. -/
def joinRegisteredRoom (digest : String → String) (rooms : JsMap Room) (clientId : String)
    (msg : JoinMsg) : Room :=
  let room := joinTargetRoom digest rooms msg
  let clientInfo : ClientInfo :=
    { id := clientId, name := jsOr msg.name "Anonymous", color := pickUserColor room }
  { room with clients := mapSet room.clients clientId clientInfo }

/-- `hasLiveState` in the join handler. -/
def hasLiveState (room : Room) : Bool :=
  mapSize room.pathsById > 0 ∨ mapSize room.shapesById > 0 ∨
  mapSize room.textsById > 0 ∨ mapSize room.imagesById > 0

/-- The auto-restore guard of the join handler. -/
def autoRestoreCond (room : Room) : Bool :=
  ¬ hasLiveState room ∧ mapSize room.clients = 1 ∧ mapSize room.sessions > 0

/-- The auto-restore step of the join handler: load the latest session
when the guard holds and a truthy latest session id exists. -/
def joinAutoRestore (room : Room) : Room :=
  if autoRestoreCond room then
    match getLatestSessionId room with
    | some sid => if sid = "" then room else (loadSession room sid).2
    | none => room
  else room

/-- The `join` branch of the websocket message handler: access checks,
room creation, participant registration, auto-restore.  Returns the
outbound frame for the joining socket and the updated room registry
(broadcasts and disk persistence carry no room state and are omitted). -/
def handleJoin (digest : String → String) (rooms : JsMap Room) (clientId : String)
    (msg : JoinMsg) : JoinResult × JsMap Room :=
  let roomId := jsOr msg.roomId "default"
  let requestedRoomType := if msg.roomType = some "private" then "private" else "public"
  let requestedPassword := jsOr msg.password ""
  match mapGet rooms roomId with
  | none =>
      if requestedRoomType = "private" ∧ requestedPassword.trim = "" then
        (JoinResult.joinError "Private rooms require a password.", rooms)
      else
        let room := joinAutoRestore (joinRegisteredRoom digest rooms clientId msg)
        (JoinResult.welcome clientId roomId (jsOr (some room.roomType) "public"),
          mapSet rooms roomId room)
  | some existingRoom =>
      if existingRoom.roomType = "private" ∧
          ¬ isPasswordValid digest existingRoom requestedPassword then
        (JoinResult.joinError "Invalid room password.", rooms)
      else
        let room := joinAutoRestore (joinRegisteredRoom digest rooms clientId msg)
        (JoinResult.welcome clientId roomId (jsOr (some room.roomType) "public"),
          mapSet rooms roomId room)

/-- The access checks under which the `join` handler rejects the join
(the two error branches of the handler). -/
def joinDenied (digest : String → String) (rooms : JsMap Room) (msg : JoinMsg) : Bool :=
  match mapGet rooms (jsOr msg.roomId "default") with
  | none =>
      (if msg.roomType = some "private" then "private" else "public") = "private" &&
        (jsOr msg.password "").trim = ""
  | some existingRoom =>
      existingRoom.roomType = "private" &&
        ! isPasswordValid digest existingRoom (jsOr msg.password "")

/-! ## Specification predicates -/

/-- The optional lookup result holds an element whose status is
`"committed"`. -/
def isCommittedEntry (o : Option Element) : Bool :=
  match o with
  | some e => e.status = some "committed"
  | none => false

/-- The id is present in one of the four collections with status
`"committed"`. -/
def hasCommittedElem (room : Room) (i : String) : Bool :=
  isCommittedEntry (mapGet room.pathsById i) ||
  isCommittedEntry (mapGet room.shapesById i) ||
  isCommittedEntry (mapGet room.textsById i) ||
  isCommittedEntry (mapGet room.imagesById i)

/-- The history invariant of the spec: `committedIds` has no duplicates
and every committed id is currently present in a collection with status
`"committed"`. -/
def historyInv (room : Room) : Prop :=
  room.committedIds.Nodup ∧ ∀ i ∈ room.committedIds, hasCommittedElem room i = true

/-- How many of the four collections contain the id. -/
def collCount (room : Room) (i : String) : Nat :=
  (if mapHas room.pathsById i then 1 else 0) +
  (if mapHas room.shapesById i then 1 else 0) +
  (if mapHas room.textsById i then 1 else 0) +
  (if mapHas room.imagesById i then 1 else 0)

/-- The disjointness invariant of the spec: an id appears in at most one
of the four element collections at a time. -/
def collDisjoint (room : Room) : Prop :=
  ∀ i, collCount room i ≤ 1

/-- The id is found by `undo` in a collection whose element carries the
kind tag `redo` needs to reinsert it into the same collection, and its
status is already `"committed"` (so forcing the status is the identity).
Under this condition `undo` followed by `redo` restores the state
exactly. -/
def undoRedoExact (room : Room) (i : String) : Bool :=
  match mapGet room.pathsById i with
  | some e => e.type = some "path" && e.status = some "committed"
  | none =>
  match mapGet room.shapesById i with
  | some e => e.type ≠ some "path" && optTruthy e.type && e.status = some "committed"
  | none =>
  match mapGet room.textsById i with
  | some e => !optTruthy e.type && e.content.isSome && e.status = some "committed"
  | none =>
  match mapGet room.imagesById i with
  | some e => !optTruthy e.type && e.content = none && e.dataUrl.isSome &&
      e.status = some "committed"
  | none => false

/-- Extensional equality of the live drawing state of two rooms: the four
collections agree as maps, and the history structures, sessions,
membership and metadata agree exactly. -/
def sameRoomState (r1 r2 : Room) : Prop :=
  (∀ i, mapGet r1.pathsById i = mapGet r2.pathsById i) ∧
  (∀ i, mapGet r1.shapesById i = mapGet r2.shapesById i) ∧
  (∀ i, mapGet r1.textsById i = mapGet r2.textsById i) ∧
  (∀ i, mapGet r1.imagesById i = mapGet r2.imagesById i) ∧
  r1.committedIds = r2.committedIds ∧
  r1.redoStack = r2.redoStack ∧
  r1.sessions = r2.sessions ∧
  r1.clients = r2.clients ∧
  r1.roomType = r2.roomType ∧
  r1.passwordHash = r2.passwordHash

/-- The status the spec prescribes for an upserted element: the declared
status when one is declared, else `"committed"` when the id is already
committed, else `"in-progress"`. -/
def specUpsertStatus (room : Room) (p : Element) : Option String :=
  if optTruthy p.status then p.status
  else if room.committedIds.contains p.id then some "committed"
  else some "in-progress"

/-- The element `upsertPath` stores for input `p`. -/
def upsertStoredPath (room : Room) (p : Element) : Element :=
  { p with
    type := some "path"
    status := some (jsOr p.status
      (if room.committedIds.contains p.id then "committed" else "in-progress")) }

/-- The element `upsertShape` stores for input `p`. -/
def upsertStoredShape (room : Room) (p : Element) : Element :=
  { p with
    status := some (jsOr p.status
      (if room.committedIds.contains p.id then "committed" else "in-progress")) }

instance (room : Room) : Decidable (historyInv room) := by
  unfold historyInv
  infer_instance

/-! ## Association-map lemmas -/

theorem mapGet_set_self {α : Type} (m : JsMap α) (k : String) (v : α) :
    mapGet (mapSet m k v) k = some v := by
  induction m with
  | nil => simp [mapSet, mapGet]
  | cons p rest ih =>
      by_cases h : p.1 = k
      · simp [mapSet, mapGet, h]
      · simp [mapSet, mapGet, h, ih]

theorem mapGet_set_ne {α : Type} (m : JsMap α) (k : String) (v : α) (j : String)
    (hjk : j ≠ k) : mapGet (mapSet m k v) j = mapGet m j := by
  induction m with
  | nil => simp [mapSet, mapGet, Ne.symm hjk]
  | cons p rest ih =>
      obtain ⟨k1, v1⟩ := p
      by_cases h : k1 = k
      · subst h
        simp [mapSet, mapGet, Ne.symm hjk]
      · by_cases h2 : k1 = j
        · simp [mapSet, mapGet, h, h2, hjk]
        · simp [mapSet, mapGet, h, h2, ih]

theorem mapGet_delete_self {α : Type} (m : JsMap α) (k : String) :
    mapGet (mapDelete m k) k = none := by
  induction m with
  | nil => simp [mapDelete, mapGet]
  | cons p rest ih =>
      by_cases h : p.1 = k
      · simp [mapDelete, mapGet, h, ih]
      · simp [mapDelete, mapGet, h, ih]

theorem mapGet_delete_ne {α : Type} (m : JsMap α) (k : String) (j : String)
    (hjk : j ≠ k) : mapGet (mapDelete m k) j = mapGet m j := by
  induction m with
  | nil => simp [mapDelete, mapGet]
  | cons p rest ih =>
      obtain ⟨k1, v1⟩ := p
      by_cases h : k1 = k
      · subst h
        simp [mapDelete, mapGet, Ne.symm hjk, ih]
      · simp [mapDelete, mapGet, h, ih]

theorem mapHas_set {α : Type} (m : JsMap α) (k : String) (v : α) (j : String) :
    mapHas (mapSet m k v) j = if j = k then true else mapHas m j := by
  by_cases h : j = k
  · subst h
    simp [mapHas, mapGet_set_self]
  · simp [mapHas, mapGet_set_ne m k v j h, h]

theorem mapHas_delete {α : Type} (m : JsMap α) (k : String) (j : String) :
    mapHas (mapDelete m k) j = if j = k then false else mapHas m j := by
  by_cases h : j = k
  · subst h
    simp [mapHas, mapGet_delete_self]
  · simp [mapHas, mapGet_delete_ne m k j h, h]

theorem mapHas_of_get {α : Type} {m : JsMap α} {k : String} {v : α}
    (h : mapGet m k = some v) : mapHas m k = true := by
  simp [mapHas, h]

/-! ## Concrete states used by counterexamples and witnesses

Each of these states is reachable: it is built from the empty registry /
fresh room through the engine operations themselves (or, for sessions,
through states `saveSession`/`hydrateRooms` can produce). -/

/-- A fresh room after one `addText` with id `"t1"`. -/
def roomC1a : Room := (addText {} (some { id := "t1", content := some "hi" })).2

/-- `roomC1a` after a second `addText` with the same id. -/
def roomC1b : Room := (addText roomC1a (some { id := "t1", content := some "hi" })).2

/-- A fresh room after `upsertPath` of `"p1"`. -/
def roomC2a : Room := (upsertPath {} (some { id := "p1", payload := "pts" })).2

/-- `roomC2a` after `commitPath "p1"`. -/
def roomC2b : Room := (commitPath roomC2a "p1").2

/-- `roomC2b` after a late `upsertPath` that explicitly declares status
`"in-progress"` for the already committed id (continued dragging). -/
def roomC2c : Room :=
  (upsertPath roomC2b (some { id := "p1", status := some "in-progress", payload := "pts" })).2

/-- A room holding one committed path, ready for an exact undo/redo
round trip. -/
def roomC2w : Room := (commitPath (upsertPath {} (some { id := "p1" })).2 "p1").2

/-- A room whose only element is the shape `"s1"`. -/
def roomC3 : Room := (upsertShape {} (some { id := "s1", type := some "rect" })).2

/-- A room whose only element is the in-progress path `"p1"`. -/
def roomC3w : Room := (upsertPath {} (some { id := "p1" })).2

/-- The element `roomC3w` stores under `"p1"`. -/
def pathElemC3w : Element := { id := "p1", type := some "path", status := some "in-progress" }

/-- The element `roomC3` stores under `"s1"`. -/
def shapeElemC3 : Element := { id := "s1", type := some "rect", status := some "in-progress" }

/-- `roomC3` after `upsertPath` with the id `"s1"` that already names a
shape. -/
def roomC4b : Room := (upsertPath roomC3 (some { id := "s1" })).2

/-- A room with one saved session holding a committed path. -/
def roomC6 : Room :=
  { sessions := [("s1",
      { name := "v1"
        createdAt := 5
        elements := [{ id := "p1", type := some "path", status := some "committed" }] })] }

/-- A concrete stand-in digest for witnesses. -/
def digestW : String → String := fun s => String.append s "#"

/-- A private room storing the digest of password `"x"`. -/
def roomC7 : Room := { roomType := "private", passwordHash := some "x#" }

/-- A registry holding `roomC7` under id `"pr"`. -/
def roomsC7 : JsMap Room := [("pr", roomC7)]

/-- A join to `"pr"` supplying the wrong password `"y"`. -/
def msgC7 : JoinMsg := { roomId := some "pr", password := some "y" }

/-- A room in which every palette color is taken. -/
def roomC9full : Room :=
  { clients := USER_COLORS.map (fun c => (c, { id := c, name := "u", color := c })) }

/-- A registry with a single empty-canvas room `"r1"` that has two saved
sessions, the younger one (`createdAt = 7`) stored second. -/
def roomsC10 : JsMap Room :=
  [("r1",
    { sessions :=
        [("sA", { name := "a", createdAt := 1
                  elements := [{ id := "p1", type := some "path", status := some "committed" }] }),
         ("sB", { name := "b", createdAt := 7
                  elements := [{ id := "p2", type := some "path", status := some "committed" }] })] })]

/-- A join to `"r1"`. -/
def msgC10 : JoinMsg := { roomId := some "r1" }

/-! ## General helper lemmas -/

theorem jsOr_eq_of_truthy {o : Option String} {d : String} (h : optTruthy o = true) :
    some (jsOr o d) = o := by
  cases o with
  | none => simp [optTruthy] at h
  | some s =>
      simp [optTruthy] at h
      simp [jsOr, h]

theorem jsOr_eq_of_falsy {o : Option String} {d : String} (h : optTruthy o = false) :
    jsOr o d = d := by
  cases o with
  | none => simp [jsOr]
  | some s =>
      simp [optTruthy] at h
      simp [jsOr, h]

theorem hasCommittedElem_congr {r1 r2 : Room} {j : String}
    (hp : mapGet r1.pathsById j = mapGet r2.pathsById j)
    (hs : mapGet r1.shapesById j = mapGet r2.shapesById j)
    (ht : mapGet r1.textsById j = mapGet r2.textsById j)
    (hi : mapGet r1.imagesById j = mapGet r2.imagesById j) :
    hasCommittedElem r1 j = hasCommittedElem r2 j := by
  simp [hasCommittedElem, hp, hs, ht, hi]

theorem find?_first {α : Type} (p : α → Bool) (l : List α) (a : α)
    (h : l.find? p = some a) :
    ∃ pre post, l = pre ++ a :: post ∧ p a = true ∧ ∀ x ∈ pre, p x = false := by
  induction l with
  | nil => simp [List.find?] at h
  | cons b rest ih =>
      by_cases hb : p b = true
      · refine ⟨[], rest, ?_, ?_, ?_⟩
        · simp [List.find?, hb] at h
          simp [h]
        · simp [List.find?, hb] at h
          rw [← h]
          exact hb
        · simp
      · simp only [List.find?] at h
        rw [Bool.not_eq_true] at hb
        rw [hb] at h
        obtain ⟨pre, post, hl, hpa, hpre⟩ := ih h
        refine ⟨b :: pre, post, by simp [hl], hpa, ?_⟩
        intro x hx
        rcases List.mem_cons.mp hx with rfl | hx
        · exact hb
        · exact hpre x hx

/-! ## C8: empty-history undo/redo are silent no-ops -/

/-- C8: for every room state with empty `committedIds`, `undo` returns
none and leaves the room unchanged; for every room state with empty
`redoStack`, `redo` returns none and leaves the room unchanged. -/
theorem claim_C8_empty_history_noops (room : Room) :
    (room.committedIds = [] → undo room = (none, room)) ∧
    (room.redoStack = [] → redo room = (none, room)) := by
  constructor
  · intro h
    simp [undo, h]
  · intro h
    simp [redo, h]

/-- Witness for C8 at the freshly created room. -/
theorem claim_C8_empty_history_noops_witness :
    (({} : Room).committedIds = [] ∧ undo {} = (none, ({} : Room))) ∧
    (({} : Room).redoStack = [] ∧ redo {} = (none, ({} : Room))) :=
  ⟨⟨rfl, (claim_C8_empty_history_noops {}).1 rfl⟩,
   ⟨rfl, (claim_C8_empty_history_noops {}).2 rfl⟩⟩

/-! ## C5: upsert contract (rejection and status inheritance) -/

/-- C5: `upsertPath`/`upsertShape` return none and mutate nothing when
the element is missing or lacks an id; otherwise they store the element
in their collection with the spec's status rule (declared status if
declared, else committed iff the id is already in `committedIds`), keep
every other field of the element, leave everything else in the room
unchanged, and return the stored element. -/
theorem claim_C5_upsert_contract (room : Room) (p : Element) (hid : p.id ≠ "") :
    upsertPath room none = (none, room) ∧
    upsertShape room none = (none, room) ∧
    upsertPath room (some { p with id := "" }) = (none, room) ∧
    upsertShape room (some { p with id := "" }) = (none, room) ∧
    (∃ stored,
      upsertPath room (some p) =
        (some stored, { room with pathsById := mapSet room.pathsById p.id stored }) ∧
      stored.status = specUpsertStatus room p ∧
      stored.id = p.id ∧ stored.content = p.content ∧
      stored.dataUrl = p.dataUrl ∧ stored.payload = p.payload) ∧
    (∃ stored,
      upsertShape room (some p) =
        (some stored, { room with shapesById := mapSet room.shapesById p.id stored }) ∧
      stored.status = specUpsertStatus room p ∧
      stored.id = p.id ∧ stored.type = p.type ∧ stored.content = p.content ∧
      stored.dataUrl = p.dataUrl ∧ stored.payload = p.payload) := by
  refine ⟨rfl, rfl, by simp [upsertPath], by simp [upsertShape], ?_, ?_⟩
  · refine ⟨upsertStoredPath room p,
      by simp [upsertPath, upsertStoredPath, hid], ?_, rfl, rfl, rfl, rfl⟩
    by_cases hs : optTruthy p.status = true
    · simp [upsertStoredPath, specUpsertStatus, hs, jsOr_eq_of_truthy hs]
    · rw [Bool.not_eq_true] at hs
      simp [upsertStoredPath, upsertStoredShape, specUpsertStatus, hs,
        jsOr_eq_of_falsy hs, apply_ite some]
  · refine ⟨upsertStoredShape room p,
      by simp [upsertShape, upsertStoredShape, hid], ?_, rfl, rfl, rfl, rfl, rfl⟩
    by_cases hs : optTruthy p.status = true
    · simp [upsertStoredShape, specUpsertStatus, hs, jsOr_eq_of_truthy hs]
    · rw [Bool.not_eq_true] at hs
      simp [upsertStoredPath, upsertStoredShape, specUpsertStatus, hs,
        jsOr_eq_of_falsy hs, apply_ite some]

/-- Witness for C5 at a fresh room and the path `{id := "p1"}`. -/
theorem claim_C5_upsert_contract_witness :
    ({ id := "p1" } : Element).id ≠ "" ∧
    (upsertPath {} none = (none, ({} : Room)) ∧
     upsertShape {} none = (none, ({} : Room)) ∧
     upsertPath {} (some { ({ id := "p1" } : Element) with id := "" }) = (none, ({} : Room)) ∧
     upsertShape {} (some { ({ id := "p1" } : Element) with id := "" }) = (none, ({} : Room)) ∧
     (∃ stored,
       upsertPath {} (some { id := "p1" }) =
         (some stored, { ({} : Room) with
            pathsById := mapSet ({} : Room).pathsById ({ id := "p1" } : Element).id stored }) ∧
       stored.status = specUpsertStatus {} { id := "p1" } ∧
       stored.id = ({ id := "p1" } : Element).id ∧
       stored.content = ({ id := "p1" } : Element).content ∧
       stored.dataUrl = ({ id := "p1" } : Element).dataUrl ∧
       stored.payload = ({ id := "p1" } : Element).payload) ∧
     (∃ stored,
       upsertShape {} (some { id := "p1" }) =
         (some stored, { ({} : Room) with
            shapesById := mapSet ({} : Room).shapesById ({ id := "p1" } : Element).id stored }) ∧
       stored.status = specUpsertStatus {} { id := "p1" } ∧
       stored.id = ({ id := "p1" } : Element).id ∧
       stored.type = ({ id := "p1" } : Element).type ∧
       stored.content = ({ id := "p1" } : Element).content ∧
       stored.dataUrl = ({ id := "p1" } : Element).dataUrl ∧
       stored.payload = ({ id := "p1" } : Element).payload)) :=
  ⟨by decide, claim_C5_upsert_contract {} { id := "p1" } (by decide)⟩

/-! ## C3: commit contract -/

/-- C3 counterexample: in `roomC3` the id `"s1"` is present in a
collection (the shape collection), yet `commitPath` returns none and
mutates nothing — refuting the claim that commit succeeds whenever the
id is present in any of the four collections. -/
theorem claim_C3_counterexample :
    mapHas roomC3.shapesById "s1" = true ∧
    commitPath roomC3 "s1" = (none, roomC3) := by
  decide

/-- C3 (amended): `commitPath` looks only in `pathsById` (and
`commitShape` only in `shapesById`): it returns none and leaves the room
completely unchanged when the id is falsy or not present in that one
collection, even if present in another collection; otherwise it appends
the id to `committedIds` only when not already present, empties
`redoStack`, stores the element with status `"committed"`, and returns
the committed element. -/
theorem claim_C3_commit_contract (room : Room) (i : String) (e : Element) :
    commitPath room "" = (none, room) ∧
    commitShape room "" = (none, room) ∧
    (mapGet room.pathsById i = none → commitPath room i = (none, room)) ∧
    (mapGet room.shapesById i = none → commitShape room i = (none, room)) ∧
    (i ≠ "" → mapGet room.pathsById i = some e →
      commitPath room i =
        (some { e with status := some "committed" },
          { room with
              committedIds :=
                if room.committedIds.contains i then room.committedIds
                else room.committedIds ++ [i]
              redoStack := []
              pathsById := mapSet room.pathsById i { e with status := some "committed" } })) ∧
    (i ≠ "" → mapGet room.shapesById i = some e →
      commitShape room i =
        (some { e with status := some "committed" },
          { room with
              committedIds :=
                if room.committedIds.contains i then room.committedIds
                else room.committedIds ++ [i]
              redoStack := []
              shapesById := mapSet room.shapesById i { e with status := some "committed" } })) := by
  refine ⟨by simp [commitPath], by simp [commitShape], ?_, ?_, ?_, ?_⟩
  · intro h
    by_cases hi : i = ""
    · simp [commitPath, hi]
    · simp [commitPath, hi, h]
  · intro h
    by_cases hi : i = ""
    · simp [commitShape, hi]
    · simp [commitShape, hi, h]
  · intro hi h
    simp [commitPath, hi, h]
  · intro hi h
    simp [commitShape, hi, h]

/-- Witness for C3: every hypothesis of the contract discharged on
concrete rooms (`"zz"` absent everywhere; `"p1"` a stored path; `"s1"` a
stored shape). -/
theorem claim_C3_commit_contract_witness :
    commitPath roomC3w "zz" = (none, roomC3w) ∧
    commitShape roomC3w "zz" = (none, roomC3w) ∧
    commitPath roomC3w "p1" =
      (some { pathElemC3w with status := some "committed" },
        { roomC3w with
            committedIds :=
              if roomC3w.committedIds.contains "p1" then roomC3w.committedIds
              else roomC3w.committedIds ++ ["p1"]
            redoStack := []
            pathsById := mapSet roomC3w.pathsById "p1"
              { pathElemC3w with status := some "committed" } }) ∧
    commitShape roomC3 "s1" =
      (some { shapeElemC3 with status := some "committed" },
        { roomC3 with
            committedIds :=
              if roomC3.committedIds.contains "s1" then roomC3.committedIds
              else roomC3.committedIds ++ ["s1"]
            redoStack := []
            shapesById := mapSet roomC3.shapesById "s1"
              { shapeElemC3 with status := some "committed" } }) :=
  ⟨(claim_C3_commit_contract roomC3w "zz" {}).2.2.1 (by decide),
   (claim_C3_commit_contract roomC3w "zz" {}).2.2.2.1 (by decide),
   (claim_C3_commit_contract roomC3w "p1" pathElemC3w).2.2.2.2.1 (by decide) (by decide),
   (claim_C3_commit_contract roomC3 "s1" shapeElemC3).2.2.2.2.2 (by decide) (by decide)⟩

/-! ## C1: the history invariant -/

theorem historyInv_clear (room : Room) : historyInv (clear room) := by
  constructor
  · simp [clear]
  · intro i hi
    simp [clear] at hi

theorem historyInv_commitPath (room : Room) (i : String) (h : historyInv room) :
    historyInv (commitPath room i).2 := by
  obtain ⟨hnd, hmem⟩ := h
  by_cases hi : i = ""
  · simpa [commitPath, hi] using ⟨hnd, hmem⟩
  · cases hg : mapGet room.pathsById i with
    | none => simpa [commitPath, hi, hg] using ⟨hnd, hmem⟩
    | some e =>
        have hstep : (commitPath room i).2 =
            { room with
                committedIds :=
                  if room.committedIds.contains i then room.committedIds
                  else room.committedIds ++ [i]
                redoStack := []
                pathsById := mapSet room.pathsById i { e with status := some "committed" } } := by
          simp [commitPath, hi, hg]
        rw [hstep]
        refine ⟨?_, ?_⟩
        · by_cases hc : room.committedIds.contains i = true
          · rw [if_pos hc]
            exact hnd
          · rw [if_neg hc]
            have hni : i ∉ room.committedIds := by simpa using hc
            simp [List.nodup_append, hnd, hni]
        · intro j hj
          by_cases hji : j = i
          · subst hji
            simp [hasCommittedElem, isCommittedEntry, mapGet_set_self]
          · have hjmem : j ∈ room.committedIds := by
              by_cases hc : room.committedIds.contains i = true
              · rw [if_pos hc] at hj
                exact hj
              · rw [if_neg hc] at hj
                rcases List.mem_append.mp hj with hj | hj
                · exact hj
                · exact absurd (by simpa using hj) hji
            have hrec := hmem j hjmem
            simp only [hasCommittedElem] at hrec ⊢
            rwa [mapGet_set_ne _ _ _ _ hji]

theorem historyInv_commitShape (room : Room) (i : String) (h : historyInv room) :
    historyInv (commitShape room i).2 := by
  obtain ⟨hnd, hmem⟩ := h
  by_cases hi : i = ""
  · simpa [commitShape, hi] using ⟨hnd, hmem⟩
  · cases hg : mapGet room.shapesById i with
    | none => simpa [commitShape, hi, hg] using ⟨hnd, hmem⟩
    | some e =>
        have hstep : (commitShape room i).2 =
            { room with
                committedIds :=
                  if room.committedIds.contains i then room.committedIds
                  else room.committedIds ++ [i]
                redoStack := []
                shapesById := mapSet room.shapesById i { e with status := some "committed" } } := by
          simp [commitShape, hi, hg]
        rw [hstep]
        refine ⟨?_, ?_⟩
        · by_cases hc : room.committedIds.contains i = true
          · rw [if_pos hc]
            exact hnd
          · rw [if_neg hc]
            have hni : i ∉ room.committedIds := by simpa using hc
            simp [List.nodup_append, hnd, hni]
        · intro j hj
          by_cases hji : j = i
          · subst hji
            simp [hasCommittedElem, isCommittedEntry, mapGet_set_self]
          · have hjmem : j ∈ room.committedIds := by
              by_cases hc : room.committedIds.contains i = true
              · rw [if_pos hc] at hj
                exact hj
              · rw [if_neg hc] at hj
                rcases List.mem_append.mp hj with hj | hj
                · exact hj
                · exact absurd (by simpa using hj) hji
            have hrec := hmem j hjmem
            simp only [hasCommittedElem] at hrec ⊢
            rwa [mapGet_set_ne _ _ _ _ hji]

theorem historyInv_undo (room : Room) (h : historyInv room) :
    historyInv (undo room).2 := by
  obtain ⟨hnd, hmem⟩ := h
  cases hg : room.committedIds.getLast? with
  | none =>
      simp only [undo, hg]
      exact ⟨hnd, hmem⟩
  | some lastId =>
      have hne : room.committedIds ≠ [] := by
        intro hnil
        rw [hnil] at hg
        simp at hg
      have hsplit : room.committedIds.dropLast ++ [lastId] = room.committedIds := by
        have h1 := List.getLast?_eq_getLast room.committedIds hne
        rw [hg] at h1
        rw [Option.some.inj h1]
        exact List.dropLast_append_getLast hne
      have hnd2 : room.committedIds.dropLast.Nodup :=
        hnd.sublist (List.dropLast_sublist _)
      have hlast : lastId ∉ room.committedIds.dropLast := by
        rw [← hsplit] at hnd
        rcases List.nodup_append.mp hnd with ⟨-, -, hdisj⟩
        intro hmem2
        exact hdisj hmem2 (by simp)
      have hmemd : ∀ j ∈ room.committedIds.dropLast, hasCommittedElem room j = true :=
        fun j hj => hmem j ((List.dropLast_sublist _).mem hj)
      have hjne : ∀ j ∈ room.committedIds.dropLast, j ≠ lastId :=
        fun j hj heq => hlast (heq ▸ hj)
      simp only [undo, hg]
      by_cases hzero : lastId = ""
      · simp only [hzero, if_pos rfl]
        exact ⟨hnd2, fun j hj => hmemd j hj⟩
      · rw [if_neg hzero]
        cases hp : mapGet room.pathsById lastId with
        | some e =>
            simp only [hp]
            refine ⟨hnd2, fun j hj => ?_⟩
            have hrec := hmemd j hj
            simp only [hasCommittedElem] at hrec ⊢
            rwa [mapGet_delete_ne _ _ _ (hjne j hj)]
        | none =>
        cases hs : mapGet room.shapesById lastId with
        | some e =>
            simp only [hp, hs]
            refine ⟨hnd2, fun j hj => ?_⟩
            have hrec := hmemd j hj
            simp only [hasCommittedElem] at hrec ⊢
            rwa [mapGet_delete_ne _ _ _ (hjne j hj)]
        | none =>
        cases ht : mapGet room.textsById lastId with
        | some e =>
            simp only [hp, hs, ht]
            refine ⟨hnd2, fun j hj => ?_⟩
            have hrec := hmemd j hj
            simp only [hasCommittedElem] at hrec ⊢
            rwa [mapGet_delete_ne _ _ _ (hjne j hj)]
        | none =>
        cases hi : mapGet room.imagesById lastId with
        | some e =>
            simp only [hp, hs, ht, hi]
            refine ⟨hnd2, fun j hj => ?_⟩
            have hrec := hmemd j hj
            simp only [hasCommittedElem] at hrec ⊢
            rwa [mapGet_delete_ne _ _ _ (hjne j hj)]
        | none =>
            simp only [hp, hs, ht, hi]
            exact ⟨hnd2, fun j hj => hmemd j hj⟩

theorem historyInv_saveSession (room : Room) (sessionName sessionId : String) (now : Nat)
    (h : historyInv room) : historyInv (saveSession room sessionName sessionId now).2 :=
  ⟨h.1, fun j hj => h.2 j hj⟩

theorem historyInv_upsertPath (room : Room) (p : Element) (h : historyInv room)
    (hst : p.status = none ∨ p.status = some "" ∨ p.status = some "committed") :
    historyInv (upsertPath room (some p)).2 := by
  obtain ⟨hnd, hmem⟩ := h
  by_cases hid : p.id = ""
  · simpa [upsertPath, hid] using ⟨hnd, hmem⟩
  · have hstep : (upsertPath room (some p)).2 =
        { room with pathsById := mapSet room.pathsById p.id (upsertStoredPath room p) } := by
      simp [upsertPath, upsertStoredPath, hid]
    rw [hstep]
    refine ⟨hnd, fun j hj => ?_⟩
    have hjm : j ∈ room.committedIds := hj
    by_cases hj2 : j = p.id
    · have hcont : room.committedIds.contains p.id = true := by
        rw [← hj2]
        simpa using hjm
      simp only [hasCommittedElem, isCommittedEntry]
      rw [hj2, mapGet_set_self]
      have hpm : p.id ∈ room.committedIds := hj2 ▸ hjm
      rcases hst with hst | hst | hst <;>
        simp [upsertStoredPath, jsOr, hst, hcont, hpm]
    · have hrec := hmem j hjm
      simp only [hasCommittedElem] at hrec ⊢
      rwa [mapGet_set_ne _ _ _ _ hj2]

theorem historyInv_upsertShape (room : Room) (p : Element) (h : historyInv room)
    (hst : p.status = none ∨ p.status = some "" ∨ p.status = some "committed") :
    historyInv (upsertShape room (some p)).2 := by
  obtain ⟨hnd, hmem⟩ := h
  by_cases hid : p.id = ""
  · simpa [upsertShape, hid] using ⟨hnd, hmem⟩
  · have hstep : (upsertShape room (some p)).2 =
        { room with shapesById := mapSet room.shapesById p.id (upsertStoredShape room p) } := by
      simp [upsertShape, upsertStoredShape, hid]
    rw [hstep]
    refine ⟨hnd, fun j hj => ?_⟩
    have hjm : j ∈ room.committedIds := hj
    by_cases hj2 : j = p.id
    · have hcont : room.committedIds.contains p.id = true := by
        rw [← hj2]
        simpa using hjm
      simp only [hasCommittedElem, isCommittedEntry]
      rw [hj2, mapGet_set_self]
      have hpm : p.id ∈ room.committedIds := hj2 ▸ hjm
      rcases hst with hst | hst | hst <;>
        simp [upsertStoredShape, jsOr, hst, hcont, hpm]
    · have hrec := hmem j hjm
      simp only [hasCommittedElem] at hrec ⊢
      rwa [mapGet_set_ne _ _ _ _ hj2]

theorem historyInv_addText (room : Room) (t : Element) (h : historyInv room)
    (hfresh : t.id ∉ room.committedIds) : historyInv (addText room (some t)).2 := by
  obtain ⟨hnd, hmem⟩ := h
  by_cases hid : t.id = ""
  · simpa [addText, hid] using ⟨hnd, hmem⟩
  · have hstep : (addText room (some t)).2 =
        { room with
            textsById := mapSet room.textsById t.id { t with status := some "committed" }
            committedIds := room.committedIds ++ [t.id]
            redoStack := [] } := by
      simp [addText, hid]
    rw [hstep]
    refine ⟨?_, ?_⟩
    · simp [List.nodup_append, hnd, hfresh]
    · intro j hj
      have hjm : j ∈ room.committedIds ++ [t.id] := hj
      rcases List.mem_append.mp hjm with hjm | hjm
      · have hne2 : j ≠ t.id := fun heq => hfresh (heq ▸ hjm)
        have hrec := hmem j hjm
        simp only [hasCommittedElem] at hrec ⊢
        rwa [mapGet_set_ne _ _ _ _ hne2]
      · have hj3 : j = t.id := by simpa using hjm
        simp only [hasCommittedElem, isCommittedEntry]
        rw [hj3, mapGet_set_self]
        simp

theorem historyInv_addImage (room : Room) (t : Element) (h : historyInv room)
    (hfresh : t.id ∉ room.committedIds) : historyInv (addImage room (some t)).2 := by
  obtain ⟨hnd, hmem⟩ := h
  by_cases hid : t.id = ""
  · simpa [addImage, hid] using ⟨hnd, hmem⟩
  · have hstep : (addImage room (some t)).2 =
        { room with
            imagesById := mapSet room.imagesById t.id { t with status := some "committed" }
            committedIds := room.committedIds ++ [t.id]
            redoStack := [] } := by
      simp [addImage, hid]
    rw [hstep]
    refine ⟨?_, ?_⟩
    · simp [List.nodup_append, hnd, hfresh]
    · intro j hj
      have hjm : j ∈ room.committedIds ++ [t.id] := hj
      rcases List.mem_append.mp hjm with hjm | hjm
      · have hne2 : j ≠ t.id := fun heq => hfresh (heq ▸ hjm)
        have hrec := hmem j hjm
        simp only [hasCommittedElem] at hrec ⊢
        rwa [mapGet_set_ne _ _ _ _ hne2]
      · have hj3 : j = t.id := by simpa using hjm
        simp only [hasCommittedElem, isCommittedEntry]
        rw [hj3, mapGet_set_self]
        simp

/-- C1 counterexample: starting from the reachable state `roomC1a` (one
`addText` on a fresh room), where the invariant holds, a second `addText`
with the same id pushes a duplicate onto `committedIds` — so the
invariant is *not* preserved by every Room State Engine operation. -/
theorem claim_C1_counterexample :
    historyInv roomC1a ∧ ¬ historyInv roomC1b := by
  decide

/-- C1 (amended): `committedIds` nodup plus committed-status presence is
preserved by `commitPath`, `commitShape`, `undo`, `clear` and
`saveSession` unconditionally; by `upsertPath`/`upsertShape` whenever the
element declares no status (absent or empty) or declares `"committed"`;
and by `addText`/`addImage` whenever the added id is not already in
`committedIds`.  (Without these side conditions the operations can break
the invariant, see the counterexample.) -/
theorem claim_C1_history_invariant (room : Room) (i : String) (el : Element)
    (sessionName sessionId : String) (now : Nat) :
    (historyInv room → historyInv (commitPath room i).2) ∧
    (historyInv room → historyInv (commitShape room i).2) ∧
    (historyInv room → historyInv (undo room).2) ∧
    historyInv (clear room) ∧
    (historyInv room → historyInv (saveSession room sessionName sessionId now).2) ∧
    (historyInv room →
      (el.status = none ∨ el.status = some "" ∨ el.status = some "committed") →
      historyInv (upsertPath room (some el)).2 ∧ historyInv (upsertShape room (some el)).2) ∧
    (historyInv room → el.id ∉ room.committedIds →
      historyInv (addText room (some el)).2 ∧ historyInv (addImage room (some el)).2) :=
  ⟨historyInv_commitPath room i,
   historyInv_commitShape room i,
   historyInv_undo room,
   historyInv_clear room,
   historyInv_saveSession room sessionName sessionId now,
   fun h hst => ⟨historyInv_upsertPath room el h hst, historyInv_upsertShape room el h hst⟩,
   fun h hf => ⟨historyInv_addText room el h hf, historyInv_addImage room el h hf⟩⟩

/-- Witness for C1: every hypothesis discharged at the reachable state
`roomC1a` and the fresh element id `"z9"`. -/
theorem claim_C1_history_invariant_witness :
    historyInv roomC1a ∧
    ({ id := "z9" } : Element).id ∉ roomC1a.committedIds ∧
    historyInv (commitPath roomC1a "t1").2 ∧
    historyInv (commitShape roomC1a "t1").2 ∧
    historyInv (undo roomC1a).2 ∧
    historyInv (clear roomC1a) ∧
    historyInv (saveSession roomC1a "n" "sid" 3).2 ∧
    (historyInv (upsertPath roomC1a (some { id := "z9" })).2 ∧
     historyInv (upsertShape roomC1a (some { id := "z9" })).2) ∧
    (historyInv (addText roomC1a (some { id := "z9" })).2 ∧
     historyInv (addImage roomC1a (some { id := "z9" })).2) :=
  ⟨by decide, by decide,
   (claim_C1_history_invariant roomC1a "t1" { id := "z9" } "n" "sid" 3).1 (by decide),
   (claim_C1_history_invariant roomC1a "t1" { id := "z9" } "n" "sid" 3).2.1 (by decide),
   (claim_C1_history_invariant roomC1a "t1" { id := "z9" } "n" "sid" 3).2.2.1 (by decide),
   (claim_C1_history_invariant roomC1a "t1" { id := "z9" } "n" "sid" 3).2.2.2.1,
   (claim_C1_history_invariant roomC1a "t1" { id := "z9" } "n" "sid" 3).2.2.2.2.1 (by decide),
   (claim_C1_history_invariant roomC1a "t1" { id := "z9" } "n" "sid" 3).2.2.2.2.2.1
     (by decide) (Or.inl rfl),
   (claim_C1_history_invariant roomC1a "t1" { id := "z9" } "n" "sid" 3).2.2.2.2.2.2
     (by decide) (by decide)⟩

/-! ## C4: cross-collection disjointness -/

theorem collDisjoint_clear (room : Room) : collDisjoint (clear room) := by
  intro i
  simp [collCount, clear, mapHas, mapGet]

theorem collDisjoint_commitPath (room : Room) (i : String) (h : collDisjoint room) :
    collDisjoint (commitPath room i).2 := by
  by_cases hi : i = ""
  · have hstep : (commitPath room i).2 = room := by simp [commitPath, hi]
    rwa [hstep]
  · cases hg : mapGet room.pathsById i with
    | none =>
        have hstep : (commitPath room i).2 = room := by simp [commitPath, hi, hg]
        rwa [hstep]
    | some e =>
        have hstep : (commitPath room i).2 =
            { room with
                committedIds :=
                  if room.committedIds.contains i then room.committedIds
                  else room.committedIds ++ [i]
                redoStack := []
                pathsById := mapSet room.pathsById i { e with status := some "committed" } } := by
          simp [commitPath, hi, hg]
        rw [hstep]
        intro j
        have hj2 := h j
        simp only [collCount] at hj2 ⊢
        rw [mapHas_set]
        by_cases hj : j = i
        · subst hj
          rw [if_pos rfl]
          rw [mapHas_of_get hg] at hj2
          simpa using hj2
        · rwa [if_neg hj]

theorem collDisjoint_commitShape (room : Room) (i : String) (h : collDisjoint room) :
    collDisjoint (commitShape room i).2 := by
  by_cases hi : i = ""
  · have hstep : (commitShape room i).2 = room := by simp [commitShape, hi]
    rwa [hstep]
  · cases hg : mapGet room.shapesById i with
    | none =>
        have hstep : (commitShape room i).2 = room := by simp [commitShape, hi, hg]
        rwa [hstep]
    | some e =>
        have hstep : (commitShape room i).2 =
            { room with
                committedIds :=
                  if room.committedIds.contains i then room.committedIds
                  else room.committedIds ++ [i]
                redoStack := []
                shapesById := mapSet room.shapesById i { e with status := some "committed" } } := by
          simp [commitShape, hi, hg]
        rw [hstep]
        intro j
        have hj2 := h j
        simp only [collCount] at hj2 ⊢
        rw [mapHas_set]
        by_cases hj : j = i
        · subst hj
          rw [if_pos rfl]
          rw [mapHas_of_get hg] at hj2
          simpa using hj2
        · rwa [if_neg hj]

theorem collDisjoint_undo (room : Room) (h : collDisjoint room) :
    collDisjoint (undo room).2 := by
  cases hg : room.committedIds.getLast? with
  | none =>
      simp only [undo, hg]
      exact h
  | some lastId =>
      simp only [undo, hg]
      by_cases hzero : lastId = ""
      · simp only [hzero, if_pos rfl]
        exact h
      · rw [if_neg hzero]
        cases hp : mapGet room.pathsById lastId with
        | some e =>
            simp only [hp]
            intro j
            refine le_trans ?_ (h j)
            simp only [collCount]
            rw [mapHas_delete]
            by_cases hj : j = lastId
            · rw [if_pos hj]
              have h0 : (if (false = true) then (1 : Nat) else 0) = 0 := by simp
              rw [h0]
              omega
            · rw [if_neg hj]
        | none =>
        cases hs : mapGet room.shapesById lastId with
        | some e =>
            simp only [hp, hs]
            intro j
            refine le_trans ?_ (h j)
            simp only [collCount]
            rw [mapHas_delete]
            by_cases hj : j = lastId
            · rw [if_pos hj]
              have h0 : (if (false = true) then (1 : Nat) else 0) = 0 := by simp
              rw [h0]
              omega
            · rw [if_neg hj]
        | none =>
        cases ht : mapGet room.textsById lastId with
        | some e =>
            simp only [hp, hs, ht]
            intro j
            refine le_trans ?_ (h j)
            simp only [collCount]
            rw [mapHas_delete]
            by_cases hj : j = lastId
            · rw [if_pos hj]
              have h0 : (if (false = true) then (1 : Nat) else 0) = 0 := by simp
              rw [h0]
              omega
            · rw [if_neg hj]
        | none =>
        cases hi : mapGet room.imagesById lastId with
        | some e =>
            simp only [hp, hs, ht, hi]
            intro j
            refine le_trans ?_ (h j)
            simp only [collCount]
            rw [mapHas_delete]
            by_cases hj : j = lastId
            · rw [if_pos hj]
              have h0 : (if (false = true) then (1 : Nat) else 0) = 0 := by simp
              rw [h0]
              omega
            · rw [if_neg hj]
        | none =>
            simp only [hp, hs, ht, hi]
            exact h

theorem collDisjoint_upsertPath (room : Room) (p : Element) (h : collDisjoint room)
    (hs : mapHas room.shapesById p.id = false)
    (ht : mapHas room.textsById p.id = false)
    (him : mapHas room.imagesById p.id = false) :
    collDisjoint (upsertPath room (some p)).2 := by
  by_cases hid : p.id = ""
  · have hstep : (upsertPath room (some p)).2 = room := by simp [upsertPath, hid]
    rwa [hstep]
  · have hstep : (upsertPath room (some p)).2 =
        { room with pathsById := mapSet room.pathsById p.id (upsertStoredPath room p) } := by
      simp [upsertPath, upsertStoredPath, hid]
    rw [hstep]
    intro j
    simp only [collCount]
    rw [mapHas_set]
    by_cases hj : j = p.id
    · subst hj
      rw [if_pos rfl, hs, ht, him]
      simp
    · rw [if_neg hj]
      exact h j

theorem collDisjoint_upsertShape (room : Room) (p : Element) (h : collDisjoint room)
    (hp : mapHas room.pathsById p.id = false)
    (ht : mapHas room.textsById p.id = false)
    (him : mapHas room.imagesById p.id = false) :
    collDisjoint (upsertShape room (some p)).2 := by
  by_cases hid : p.id = ""
  · have hstep : (upsertShape room (some p)).2 = room := by simp [upsertShape, hid]
    rwa [hstep]
  · have hstep : (upsertShape room (some p)).2 =
        { room with shapesById := mapSet room.shapesById p.id (upsertStoredShape room p) } := by
      simp [upsertShape, upsertStoredShape, hid]
    rw [hstep]
    intro j
    simp only [collCount]
    rw [mapHas_set]
    by_cases hj : j = p.id
    · subst hj
      rw [if_pos rfl, hp, ht, him]
      simp
    · rw [if_neg hj]
      exact h j

/-- C4 counterexample: in the reachable state `roomC3` the id `"s1"`
lives in exactly one collection; `upsertPath` with the same id then
stores it in `pathsById` *without* removing it from `shapesById`, so the
id ends up in two collections — the disjointness invariant is not
preserved by `upsertPath` applied with an id already stored in a
different collection. -/
theorem claim_C4_counterexample :
    collCount roomC3 "s1" = 1 ∧ collCount roomC4b "s1" = 2 := by
  decide

/-- C4 (amended): an id appears in at most one collection is preserved
by `commitPath`, `commitShape`, `undo` and `clear`; `upsertPath`
(`upsertShape`) preserves it only when the upserted id is not already
present in one of the other three collections — with an id already
stored in a different collection the upsert creates a cross-collection
duplicate (see the counterexample). -/
theorem claim_C4_collection_disjointness (room : Room) (i : String) (el : Element) :
    (collDisjoint room → collDisjoint (commitPath room i).2) ∧
    (collDisjoint room → collDisjoint (commitShape room i).2) ∧
    (collDisjoint room → collDisjoint (undo room).2) ∧
    collDisjoint (clear room) ∧
    (collDisjoint room → mapHas room.shapesById el.id = false →
      mapHas room.textsById el.id = false → mapHas room.imagesById el.id = false →
      collDisjoint (upsertPath room (some el)).2) ∧
    (collDisjoint room → mapHas room.pathsById el.id = false →
      mapHas room.textsById el.id = false → mapHas room.imagesById el.id = false →
      collDisjoint (upsertShape room (some el)).2) :=
  ⟨collDisjoint_commitPath room i,
   collDisjoint_commitShape room i,
   collDisjoint_undo room,
   collDisjoint_clear room,
   collDisjoint_upsertPath room el,
   collDisjoint_upsertShape room el⟩

/-- Witness for C4 with every hypothesis discharged at the fresh room. -/
theorem claim_C4_collection_disjointness_witness :
    collDisjoint (commitPath {} "i1").2 ∧
    collDisjoint (commitShape {} "i1").2 ∧
    collDisjoint (undo ({} : Room)).2 ∧
    collDisjoint (clear ({} : Room)) ∧
    collDisjoint (upsertPath {} (some { id := "p9" })).2 ∧
    collDisjoint (upsertShape {} (some { id := "p9" })).2 := by
  have hd : collDisjoint ({} : Room) := by
    intro i
    simp [collCount, mapHas, mapGet]
  exact ⟨(claim_C4_collection_disjointness {} "i1" { id := "p9" }).1 hd,
    (claim_C4_collection_disjointness {} "i1" { id := "p9" }).2.1 hd,
    (claim_C4_collection_disjointness {} "i1" { id := "p9" }).2.2.1 hd,
    (claim_C4_collection_disjointness {} "i1" { id := "p9" }).2.2.2.1,
    (claim_C4_collection_disjointness {} "i1" { id := "p9" }).2.2.2.2.1 hd
      (by decide) (by decide) (by decide),
    (claim_C4_collection_disjointness {} "i1" { id := "p9" }).2.2.2.2.2 hd
      (by decide) (by decide) (by decide)⟩

/-! ## C2: undo/redo round trip -/

theorem element_status_update_self (e : Element) (h : e.status = some "committed") :
    ({ e with status := some "committed" } : Element) = e := by
  cases e
  simp_all

theorem redo_of_empty_stack (r : Room) (h : r.redoStack = []) : redo r = (none, r) := by
  simp [redo, h]

theorem insertSessionElement_frame (r : Room) (e : Element) :
    (insertSessionElement r e).redoStack = r.redoStack ∧
    (insertSessionElement r e).sessions = r.sessions ∧
    (insertSessionElement r e).clients = r.clients ∧
    (insertSessionElement r e).roomType = r.roomType ∧
    (insertSessionElement r e).passwordHash = r.passwordHash := by
  by_cases h1 : e.type = some "path" <;>
  by_cases h2 : optTruthy e.type = true <;>
  by_cases h3 : e.content.isSome = true <;>
  by_cases h4 : e.dataUrl.isSome = true <;>
  by_cases h5 : e.status = some "committed" <;>
    simp [insertSessionElement, h1, h2, h3, h4, h5]

theorem foldl_insert_frame (es : List Element) (r : Room) :
    (es.foldl insertSessionElement r).redoStack = r.redoStack ∧
    (es.foldl insertSessionElement r).sessions = r.sessions ∧
    (es.foldl insertSessionElement r).clients = r.clients ∧
    (es.foldl insertSessionElement r).roomType = r.roomType ∧
    (es.foldl insertSessionElement r).passwordHash = r.passwordHash := by
  induction es generalizing r with
  | nil => exact ⟨rfl, rfl, rfl, rfl, rfl⟩
  | cons e rest ih =>
      simp only [List.foldl_cons]
      obtain ⟨h1, h2, h3, h4, h5⟩ := ih (insertSessionElement r e)
      obtain ⟨g1, g2, g3, g4, g5⟩ := insertSessionElement_frame r e
      exact ⟨h1.trans g1, h2.trans g2, h3.trans g3, h4.trans g4, h5.trans g5⟩

/-- C2 counterexample: in the reachable state `roomC2c` (path committed,
then a late upsert with explicit status `"in-progress"`) `committedIds` is
non-empty and the stored element's status is `"in-progress"`; after undo
followed by redo the status is `"committed"` — so the round trip does
*not* restore the exact status that existed immediately before the undo. -/
theorem claim_C2_counterexample :
    roomC2c.committedIds ≠ [] ∧
    (mapGet roomC2c.pathsById "p1").map Element.status = some (some "in-progress") ∧
    (mapGet ((redo (undo roomC2c).2).2).pathsById "p1").map Element.status =
      some (some "committed") := by
  decide

/-- C2 (amended): when the last committed id names an element whose
status is already `"committed"` and whose kind tag routes `redo` back to
the collection `undo` removed it from (predicate `undoRedoExact`), undo
followed by redo restores the room state exactly — collections
extensionally, `committedIds` order included; and after `clear` or a
successful `loadSession` the redo stack is empty, so `redo` is a no-op.
(Without the status condition redo forces `"committed"` and the round
trip is inexact, see the counterexample.) -/
theorem claim_C2_undo_redo_roundtrip (room : Room) (sid : String) (s : Session) :
    (∀ c i, room.committedIds = c ++ [i] → i ≠ "" → undoRedoExact room i = true →
      sameRoomState (redo (undo room).2).2 room) ∧
    (clear room).redoStack = [] ∧
    redo (clear room) = (none, clear room) ∧
    (mapGet room.sessions sid = some s →
      (loadSession room sid).2.redoStack = [] ∧
      redo (loadSession room sid).2 = (none, (loadSession room sid).2)) := by
  refine ⟨?_, rfl, redo_of_empty_stack _ rfl, ?_⟩
  · intro c i hc hi hx
    cases hp : mapGet room.pathsById i with
    | some e =>
        simp only [undoRedoExact, hp, Bool.and_eq_true, decide_eq_true_eq] at hx
        obtain ⟨hty, hst⟩ := hx
        have hu : (undo room).2 =
            { room with
                committedIds := c
                pathsById := mapDelete room.pathsById i
                redoStack := room.redoStack ++ [(i, e)] } := by
          simp [undo, hc, List.getLast?_concat, List.dropLast_concat, hi, hp]
        have hr : (redo (undo room).2).2 =
            { room with
                committedIds := c ++ [i]
                pathsById := mapSet (mapDelete room.pathsById i) i e } := by
          rw [hu]
          simp [redo, List.getLast?_concat, List.dropLast_concat, hty,
            element_status_update_self e hst]
          rw [← hty, ← hst]
        rw [hr]
        refine ⟨?_, fun j => rfl, fun j => rfl, fun j => rfl, hc.symm, rfl, rfl, rfl, rfl, rfl⟩
        intro j
        by_cases hji : j = i
        · rw [hji, mapGet_set_self, hp]
        · rw [mapGet_set_ne _ _ _ _ hji, mapGet_delete_ne _ _ _ hji]
    | none =>
    cases hsh : mapGet room.shapesById i with
    | some e =>
        simp only [undoRedoExact, hp, hsh, Bool.and_eq_true, decide_eq_true_eq] at hx
        obtain ⟨⟨hnp, hty⟩, hst⟩ := hx
        have hu : (undo room).2 =
            { room with
                committedIds := c
                shapesById := mapDelete room.shapesById i
                redoStack := room.redoStack ++ [(i, e)] } := by
          simp [undo, hc, List.getLast?_concat, List.dropLast_concat, hi, hp, hsh]
        have hr : (redo (undo room).2).2 =
            { room with
                committedIds := c ++ [i]
                shapesById := mapSet (mapDelete room.shapesById i) i e } := by
          rw [hu]
          simp [redo, List.getLast?_concat, List.dropLast_concat, hnp, hty,
            element_status_update_self e hst]
        rw [hr]
        refine ⟨fun j => rfl, ?_, fun j => rfl, fun j => rfl, hc.symm, rfl, rfl, rfl, rfl, rfl⟩
        intro j
        by_cases hji : j = i
        · rw [hji, mapGet_set_self, hsh]
        · rw [mapGet_set_ne _ _ _ _ hji, mapGet_delete_ne _ _ _ hji]
    | none =>
    cases hte : mapGet room.textsById i with
    | some e =>
        simp only [undoRedoExact, hp, hsh, hte, Bool.and_eq_true, decide_eq_true_eq,
          Bool.not_eq_true'] at hx
        obtain ⟨⟨hnt, hco⟩, hst⟩ := hx
        have hnp : ¬ e.type = some "path" := by
          intro hh
          rw [hh] at hnt
          simp [optTruthy] at hnt
        have hu : (undo room).2 =
            { room with
                committedIds := c
                textsById := mapDelete room.textsById i
                redoStack := room.redoStack ++ [(i, e)] } := by
          simp [undo, hc, List.getLast?_concat, List.dropLast_concat, hi, hp, hsh, hte]
        have hr : (redo (undo room).2).2 =
            { room with
                committedIds := c ++ [i]
                textsById := mapSet (mapDelete room.textsById i) i e } := by
          rw [hu]
          simp [redo, List.getLast?_concat, List.dropLast_concat, hnp, hnt, hco,
            element_status_update_self e hst]
        rw [hr]
        refine ⟨fun j => rfl, fun j => rfl, ?_, fun j => rfl, hc.symm, rfl, rfl, rfl, rfl, rfl⟩
        intro j
        by_cases hji : j = i
        · rw [hji, mapGet_set_self, hte]
        · rw [mapGet_set_ne _ _ _ _ hji, mapGet_delete_ne _ _ _ hji]
    | none =>
    cases him : mapGet room.imagesById i with
    | some e =>
        simp only [undoRedoExact, hp, hsh, hte, him, Bool.and_eq_true, decide_eq_true_eq,
          Bool.not_eq_true'] at hx
        obtain ⟨⟨⟨hnt, hco⟩, hdu⟩, hst⟩ := hx
        have hnp : ¬ e.type = some "path" := by
          intro hh
          rw [hh] at hnt
          simp [optTruthy] at hnt
        have hu : (undo room).2 =
            { room with
                committedIds := c
                imagesById := mapDelete room.imagesById i
                redoStack := room.redoStack ++ [(i, e)] } := by
          simp [undo, hc, List.getLast?_concat, List.dropLast_concat, hi, hp, hsh, hte, him]
        have hr : (redo (undo room).2).2 =
            { room with
                committedIds := c ++ [i]
                imagesById := mapSet (mapDelete room.imagesById i) i e } := by
          rw [hu]
          simp [redo, List.getLast?_concat, List.dropLast_concat, hnp, hnt, hco, hdu,
            element_status_update_self e hst]
          rw [← hst, ← hco]
        rw [hr]
        refine ⟨fun j => rfl, fun j => rfl, fun j => rfl, ?_, hc.symm, rfl, rfl, rfl, rfl, rfl⟩
        intro j
        by_cases hji : j = i
        · rw [hji, mapGet_set_self, him]
        · rw [mapGet_set_ne _ _ _ _ hji, mapGet_delete_ne _ _ _ hji]
    | none =>
        simp [undoRedoExact, hp, hsh, hte, him] at hx
  · intro hs0
    have hload : (loadSession room sid).2 = s.elements.foldl insertSessionElement (clear room) := by
      simp [loadSession, hs0]
    have hempty : (loadSession room sid).2.redoStack = [] := by
      rw [hload]
      exact (foldl_insert_frame s.elements (clear room)).1
    exact ⟨hempty, redo_of_empty_stack _ hempty⟩

/-- Witness for C2: the round trip applied at the reachable state
`roomC2w` (one committed path) and the session load applied at `roomC6`. -/
theorem claim_C2_undo_redo_roundtrip_witness :
    (roomC2w.committedIds = [] ++ ["p1"] ∧ ("p1" : String) ≠ "" ∧
      undoRedoExact roomC2w "p1" = true ∧
      sameRoomState (redo (undo roomC2w).2).2 roomC2w) ∧
    (mapGet roomC6.sessions "s1" =
        some { name := "v1", createdAt := 5
               elements := [{ id := "p1", type := some "path", status := some "committed" }] } ∧
      (loadSession roomC6 "s1").2.redoStack = [] ∧
      redo (loadSession roomC6 "s1").2 = (none, (loadSession roomC6 "s1").2)) :=
  ⟨⟨by decide, by decide, by decide,
    (claim_C2_undo_redo_roundtrip roomC2w "s1"
      { name := "v1", createdAt := 5
        elements := [{ id := "p1", type := some "path", status := some "committed" }] }).1
      [] "p1" (by decide) (by decide) (by decide)⟩,
   ⟨by decide,
    (claim_C2_undo_redo_roundtrip roomC6 "s1"
      { name := "v1", createdAt := 5
        elements := [{ id := "p1", type := some "path", status := some "committed" }] }).2.2.2
      (by decide)⟩⟩

/-! ## C6: loadSession is idempotent -/

theorem room_eq_of_fields {r r' : Room}
    (h1 : r.clients = r'.clients) (h2 : r.pathsById = r'.pathsById)
    (h3 : r.shapesById = r'.shapesById) (h4 : r.textsById = r'.textsById)
    (h5 : r.imagesById = r'.imagesById) (h6 : r.committedIds = r'.committedIds)
    (h7 : r.redoStack = r'.redoStack) (h8 : r.sessions = r'.sessions)
    (h9 : r.roomType = r'.roomType) (h10 : r.passwordHash = r'.passwordHash) : r = r' := by
  cases r
  cases r'
  simp_all

theorem insertSessionElement_live_congr (r r' : Room) (e : Element)
    (hp : r.pathsById = r'.pathsById) (hs : r.shapesById = r'.shapesById)
    (ht : r.textsById = r'.textsById) (hi : r.imagesById = r'.imagesById)
    (hc : r.committedIds = r'.committedIds) :
    (insertSessionElement r e).pathsById = (insertSessionElement r' e).pathsById ∧
    (insertSessionElement r e).shapesById = (insertSessionElement r' e).shapesById ∧
    (insertSessionElement r e).textsById = (insertSessionElement r' e).textsById ∧
    (insertSessionElement r e).imagesById = (insertSessionElement r' e).imagesById ∧
    (insertSessionElement r e).committedIds = (insertSessionElement r' e).committedIds := by
  by_cases h1 : e.type = some "path" <;>
  by_cases h2 : optTruthy e.type = true <;>
  by_cases h3 : e.content.isSome = true <;>
  by_cases h4 : e.dataUrl.isSome = true <;>
  by_cases h5 : e.status = some "committed" <;>
    simp [insertSessionElement, h1, h2, h3, h4, h5, hp, hs, ht, hi, hc]

theorem foldl_insert_live_congr (es : List Element) (r r' : Room)
    (hp : r.pathsById = r'.pathsById) (hs : r.shapesById = r'.shapesById)
    (ht : r.textsById = r'.textsById) (hi : r.imagesById = r'.imagesById)
    (hc : r.committedIds = r'.committedIds) :
    (es.foldl insertSessionElement r).pathsById = (es.foldl insertSessionElement r').pathsById ∧
    (es.foldl insertSessionElement r).shapesById = (es.foldl insertSessionElement r').shapesById ∧
    (es.foldl insertSessionElement r).textsById = (es.foldl insertSessionElement r').textsById ∧
    (es.foldl insertSessionElement r).imagesById = (es.foldl insertSessionElement r').imagesById ∧
    (es.foldl insertSessionElement r).committedIds =
      (es.foldl insertSessionElement r').committedIds := by
  induction es generalizing r r' with
  | nil => exact ⟨hp, hs, ht, hi, hc⟩
  | cons e rest ih =>
      simp only [List.foldl_cons]
      obtain ⟨g1, g2, g3, g4, g5⟩ := insertSessionElement_live_congr r r' e hp hs ht hi hc
      exact ih (insertSessionElement r e) (insertSessionElement r' e) g1 g2 g3 g4 g5

theorem loadSession_some (r : Room) (sid : String) (s : Session)
    (h : mapGet r.sessions sid = some s) :
    loadSession r sid = (some s.elements, s.elements.foldl insertSessionElement (clear r)) := by
  simp [loadSession, h]

/-- C6: for every session id present in `room.sessions`, `loadSession` is
idempotent — loading the same session twice in a row yields exactly the
room state of loading it once. -/
theorem claim_C6_loadSession_idempotent (room : Room) (sid : String) (s : Session)
    (h : mapGet room.sessions sid = some s) :
    (loadSession (loadSession room sid).2 sid).2 = (loadSession room sid).2 := by
  have h1 : (loadSession room sid).2 = s.elements.foldl insertSessionElement (clear room) := by
    rw [loadSession_some room sid s h]
  obtain ⟨f1, f2, f3, f4, f5⟩ := foldl_insert_frame s.elements (clear room)
  have hsess : (loadSession room sid).2.sessions = room.sessions := by
    rw [h1]
    exact f2
  have hget : mapGet (loadSession room sid).2.sessions sid = some s := by
    rw [hsess]
    exact h
  have h2 : (loadSession (loadSession room sid).2 sid).2 =
      s.elements.foldl insertSessionElement (clear (loadSession room sid).2) := by
    rw [loadSession_some _ sid s hget]
  rw [h2, h1]
  obtain ⟨g1, g2, g3, g4, g5⟩ :=
    foldl_insert_frame s.elements (clear (s.elements.foldl insertSessionElement (clear room)))
  obtain ⟨l1, l2, l3, l4, l5⟩ :=
    foldl_insert_live_congr s.elements
      (clear (s.elements.foldl insertSessionElement (clear room))) (clear room)
      rfl rfl rfl rfl rfl
  exact room_eq_of_fields g3 l1 l2 l3 l4 l5 (g1.trans f1.symm) g2 g4 g5

/-- Witness for C6 at `roomC6` and its stored session `"s1"`. -/
theorem claim_C6_loadSession_idempotent_witness :
    mapGet roomC6.sessions "s1" =
      some { name := "v1", createdAt := 5
             elements := [{ id := "p1", type := some "path", status := some "committed" }] } ∧
    (loadSession (loadSession roomC6 "s1").2 "s1").2 = (loadSession roomC6 "s1").2 :=
  ⟨by decide,
   claim_C6_loadSession_idempotent roomC6 "s1"
     { name := "v1", createdAt := 5
       elements := [{ id := "p1", type := some "path", status := some "committed" }] }
     (by decide)⟩

/-! ## C7: password check and join abort -/

/-- C7: the password check always succeeds for a non-private room; for a
private room with a stored hash it succeeds iff the hash of the supplied
password equals the stored hash (the hypothesis that the hash is set for
a private room is the data-model invariant of the spec, maintained by
room creation); and a join to an existing private room with an invalid
password returns only the access-denied error and leaves the room
registry — including the room membership — completely unchanged. -/
theorem claim_C7_password_check (digest : String → String) (room : Room) (password : String)
    (rooms : JsMap Room) (clientId : String) (msg : JoinMsg) (r0 : Room) :
    (room.roomType ≠ "private" → isPasswordValid digest room password = true) ∧
    (room.roomType = "private" → optTruthy room.passwordHash = true →
      (isPasswordValid digest room password = true ↔
        hashPassword digest password = room.passwordHash)) ∧
    (mapGet rooms (jsOr msg.roomId "default") = some r0 → r0.roomType = "private" →
      isPasswordValid digest r0 (jsOr msg.password "") = false →
      handleJoin digest rooms clientId msg =
        (JoinResult.joinError "Invalid room password.", rooms)) := by
  refine ⟨?_, ?_, ?_⟩
  · intro h
    simp [isPasswordValid, h]
  · intro h1 h2
    simp [isPasswordValid, h1, h2]
  · intro hget hpriv hbad
    simp [handleJoin, hget, hpriv, hbad]

/-- Witness for C7: a public room, the private room `roomC7` with the
right and wrong passwords, and the aborted join `msgC7`. -/
theorem claim_C7_password_check_witness :
    (({} : Room).roomType ≠ "private" ∧ isPasswordValid digestW {} "y" = true) ∧
    (roomC7.roomType = "private" ∧ optTruthy roomC7.passwordHash = true ∧
      (isPasswordValid digestW roomC7 "y" = true ↔
        hashPassword digestW "y" = roomC7.passwordHash)) ∧
    (mapGet roomsC7 (jsOr msgC7.roomId "default") = some roomC7 ∧
      roomC7.roomType = "private" ∧
      isPasswordValid digestW roomC7 (jsOr msgC7.password "") = false ∧
      handleJoin digestW roomsC7 "user-1" msgC7 =
        (JoinResult.joinError "Invalid room password.", roomsC7)) :=
  ⟨⟨by decide,
    (claim_C7_password_check digestW {} "y" roomsC7 "user-1" msgC7 roomC7).1 (by decide)⟩,
   ⟨rfl, by decide,
    (claim_C7_password_check digestW roomC7 "y" roomsC7 "user-1" msgC7 roomC7).2.1
      rfl (by decide)⟩,
   ⟨by decide, rfl, by decide,
    (claim_C7_password_check digestW roomC7 "y" roomsC7 "user-1" msgC7 roomC7).2.2
      (by decide) rfl (by decide)⟩⟩

/-! ## C9: palette color assignment on join -/

/-- C9: the color `pickUserColor` assigns is the first palette color not
used by any participant already in the room; when every palette color is
in use, it is the palette entry at index `clients.size % 10`. -/
theorem claim_C9_color_assignment (room : Room) :
    ((∃ c ∈ USER_COLORS, colorUsed room c = false) →
      ∃ pre post, USER_COLORS = pre ++ pickUserColor room :: post ∧
        colorUsed room (pickUserColor room) = false ∧
        ∀ c ∈ pre, colorUsed room c = true) ∧
    ((∀ c ∈ USER_COLORS, colorUsed room c = true) →
      pickUserColor room = USER_COLORS.getD (mapSize room.clients % USER_COLORS.length) "") := by
  constructor
  · rintro ⟨c0, hc0, hcu⟩
    cases hfind : USER_COLORS.find? (fun c => !colorUsed room c) with
    | none =>
        exfalso
        have := List.find?_eq_none.mp hfind c0 hc0
        simp [hcu] at this
    | some c =>
        obtain ⟨pre, post, hdec, hpc, hpre⟩ := find?_first _ _ _ hfind
        have hpick : pickUserColor room = c := by
          simp [pickUserColor, hfind]
        refine ⟨pre, post, by rw [hpick]; exact hdec, ?_, ?_⟩
        · rw [hpick]
          simpa using hpc
        · intro x hx
          have := hpre x hx
          simpa using this
  · intro hall
    cases hfind : USER_COLORS.find? (fun c => !colorUsed room c) with
    | none => simp [pickUserColor, hfind]
    | some c =>
        exfalso
        have hmem : c ∈ USER_COLORS := List.mem_of_find?_eq_some hfind
        have hpc := List.find?_some hfind
        simp [hall c hmem] at hpc

/-- Witness for C9: the empty room gets the first palette color; in
`roomC9full` every color is used and the fallback index rule applies. -/
theorem claim_C9_color_assignment_witness :
    ((∃ c ∈ USER_COLORS, colorUsed ({} : Room) c = false) ∧
      (∃ pre post, USER_COLORS = pre ++ pickUserColor {} :: post ∧
        colorUsed {} (pickUserColor {}) = false ∧
        ∀ c ∈ pre, colorUsed ({} : Room) c = true)) ∧
    ((∀ c ∈ USER_COLORS, colorUsed roomC9full c = true) ∧
      pickUserColor roomC9full =
        USER_COLORS.getD (mapSize roomC9full.clients % USER_COLORS.length) "") :=
  ⟨⟨by decide, (claim_C9_color_assignment {}).1 (by decide)⟩,
   ⟨by decide, (claim_C9_color_assignment roomC9full).2 (by decide)⟩⟩

/-! ## C10: session auto-restore on join -/

theorem handleJoin_not_denied (digest : String → String) (rooms : JsMap Room)
    (clientId : String) (msg : JoinMsg)
    (hok : joinDenied digest rooms msg = false) :
    handleJoin digest rooms clientId msg =
      (JoinResult.welcome clientId (jsOr msg.roomId "default")
        (jsOr (some (joinAutoRestore (joinRegisteredRoom digest rooms clientId msg)).roomType)
          "public"),
       mapSet rooms (jsOr msg.roomId "default")
         (joinAutoRestore (joinRegisteredRoom digest rooms clientId msg))) := by
  cases hget : mapGet rooms (jsOr msg.roomId "default") with
  | none =>
      have hcond : ¬ ((if msg.roomType = some "private" then "private" else "public") =
          "private" ∧ (jsOr msg.password "").trim = "") := by
        rintro ⟨ha, hb⟩
        simp [joinDenied, hget, ha, hb] at hok
      simp [handleJoin, hget, hcond]
      intro ha hb
      exact hcond ⟨by simp [ha], hb⟩
  | some r0 =>
      have hcond : ¬ (r0.roomType = "private" ∧
          ¬ isPasswordValid digest r0 (jsOr msg.password "") = true) := by
        rintro ⟨ha, hb⟩
        rw [Bool.not_eq_true] at hb
        simp [joinDenied, hget, ha, hb] at hok
      simp [handleJoin, hget, hcond]
      intro ha
      by_contra hbad
      exact hcond ⟨ha, hbad⟩

theorem buildSessionList_head_max (room : Room) (meta : SessionMeta)
    (rest : List SessionMeta) (h : buildSessionList room = meta :: rest) :
    (∃ s, (meta.id, s) ∈ room.sessions ∧ s.createdAt = meta.createdAt) ∧
    ∀ e ∈ room.sessions, e.2.createdAt ≤ meta.createdAt := by
  have hperm : (buildSessionList room).Perm
      (room.sessions.map (fun p => SessionMeta.mk p.1 p.2.name p.2.createdAt)) :=
    List.mergeSort_perm _ _
  constructor
  · have hmem : meta ∈ buildSessionList room := by
      rw [h]
      simp
    obtain ⟨p, hp, hpe⟩ := List.mem_map.mp (hperm.subset hmem)
    refine ⟨p.2, ?_, ?_⟩
    · have : (meta.id, p.2) = p := by
        rw [← hpe]
      rw [this]
      exact hp
    · rw [← hpe]
  · intro e he
    have hm : SessionMeta.mk e.1 e.2.name e.2.createdAt ∈ buildSessionList room :=
      hperm.mem_iff.mpr (List.mem_map.mpr ⟨e, he, rfl⟩)
    rw [h] at hm
    rcases List.mem_cons.mp hm with heq | hm
    · have : e.2.createdAt = meta.createdAt := by
        rw [← heq]
      exact le_of_eq this
    · have htrans : ∀ a b c : SessionMeta,
          (decide (b.createdAt ≤ a.createdAt)) = true →
          (decide (c.createdAt ≤ b.createdAt)) = true →
          (decide (c.createdAt ≤ a.createdAt)) = true := by
        intro a b c h1 h2
        simp at h1 h2 ⊢
        omega
      have htot : ∀ a b : SessionMeta,
          ((decide (b.createdAt ≤ a.createdAt)) || (decide (a.createdAt ≤ b.createdAt))) = true := by
        intro a b
        rcases Nat.le_total b.createdAt a.createdAt with h2 | h2 <;> simp [h2]
      have hsor := List.sorted_mergeSort htrans htot
        (room.sessions.map (fun p => SessionMeta.mk p.1 p.2.name p.2.createdAt))
      have hsor2 : List.Pairwise
          (fun a b => (decide (b.createdAt ≤ a.createdAt)) = true)
          (meta :: rest) := by
        rw [← h]
        exact hsor
      have := (List.pairwise_cons.mp hsor2).1 _ hm
      simpa using this

/-- C10: under the join access checks, after the joining participant is
registered, the server loads a session automatically exactly when the
room has no live elements, the joiner is the only member and a saved
session exists; the loaded session id is the head of the
createdAt-descending session list, whose `createdAt` is maximal among all
saved sessions; in every other case the join changes the registry only by
storing the registered room, with no session loaded. -/
theorem claim_C10_auto_restore (digest : String → String) (rooms : JsMap Room)
    (clientId : String) (msg : JoinMsg)
    (hok : joinDenied digest rooms msg = false) :
    (autoRestoreCond (joinRegisteredRoom digest rooms clientId msg) = false →
      (handleJoin digest rooms clientId msg).2 =
        mapSet rooms (jsOr msg.roomId "default")
          (joinRegisteredRoom digest rooms clientId msg)) ∧
    (autoRestoreCond (joinRegisteredRoom digest rooms clientId msg) = true →
      ∃ meta rest,
        buildSessionList (joinRegisteredRoom digest rooms clientId msg) = meta :: rest ∧
        (∃ s, (meta.id, s) ∈ (joinRegisteredRoom digest rooms clientId msg).sessions ∧
          s.createdAt = meta.createdAt) ∧
        (∀ e ∈ (joinRegisteredRoom digest rooms clientId msg).sessions,
          e.2.createdAt ≤ meta.createdAt) ∧
        (meta.id ≠ "" →
          (handleJoin digest rooms clientId msg).2 =
            mapSet rooms (jsOr msg.roomId "default")
              ((loadSession (joinRegisteredRoom digest rooms clientId msg) meta.id).2))) := by
  have hmain := handleJoin_not_denied digest rooms clientId msg hok
  constructor
  · intro hcond
    rw [hmain]
    simp [joinAutoRestore, hcond]
  · intro hcond
    cases hb : buildSessionList (joinRegisteredRoom digest rooms clientId msg) with
    | nil =>
        exfalso
        have h3 : 0 < mapSize (joinRegisteredRoom digest rooms clientId msg).sessions := by
          simp [autoRestoreCond] at hcond
          exact hcond.2.2
        have hperm : (buildSessionList (joinRegisteredRoom digest rooms clientId msg)).Perm
            ((joinRegisteredRoom digest rooms clientId msg).sessions.map
              (fun p => SessionMeta.mk p.1 p.2.name p.2.createdAt)) :=
          List.mergeSort_perm _ _
        have hlen := hperm.length_eq
        rw [hb] at hlen
        have hnil : (joinRegisteredRoom digest rooms clientId msg).sessions = [] := by
          simpa using hlen.symm
        rw [hnil] at h3
        simp [mapSize] at h3
    | cons meta rest =>
        obtain ⟨hex, hmax⟩ :=
          buildSessionList_head_max (joinRegisteredRoom digest rooms clientId msg) meta rest hb
        refine ⟨meta, rest, rfl, hex, hmax, ?_⟩
        intro hid
        rw [hmain]
        simp [joinAutoRestore, hcond, getLatestSessionId, hb, hid]

/-- Witness for C10: the registry `roomsC10` (empty canvas, two saved
sessions) triggers the auto-restore branch; a join creating a fresh room
takes the no-restore branch. -/
theorem claim_C10_auto_restore_witness :
    (joinDenied digestW roomsC10 msgC10 = false ∧
      autoRestoreCond (joinRegisteredRoom digestW roomsC10 "user-0" msgC10) = true ∧
      (∃ meta rest,
        buildSessionList (joinRegisteredRoom digestW roomsC10 "user-0" msgC10) = meta :: rest ∧
        (∃ s, (meta.id, s) ∈ (joinRegisteredRoom digestW roomsC10 "user-0" msgC10).sessions ∧
          s.createdAt = meta.createdAt) ∧
        (∀ e ∈ (joinRegisteredRoom digestW roomsC10 "user-0" msgC10).sessions,
          e.2.createdAt ≤ meta.createdAt) ∧
        (meta.id ≠ "" →
          (handleJoin digestW roomsC10 "user-0" msgC10).2 =
            mapSet roomsC10 (jsOr msgC10.roomId "default")
              ((loadSession (joinRegisteredRoom digestW roomsC10 "user-0" msgC10) meta.id).2)))) ∧
    (joinDenied digestW [] { } = false ∧
      autoRestoreCond (joinRegisteredRoom digestW [] "user-0" { }) = false ∧
      (handleJoin digestW [] "user-0" { }).2 =
        mapSet [] (jsOr ({ } : JoinMsg).roomId "default")
          (joinRegisteredRoom digestW [] "user-0" { })) :=
  ⟨⟨by decide, by decide,
    (claim_C10_auto_restore digestW roomsC10 "user-0" msgC10 (by decide)).2 (by decide)⟩,
   ⟨by decide, by decide,
    (claim_C10_auto_restore digestW [] "user-0" { } (by decide)).1 (by decide)⟩⟩

end CollabDraw
